import Mathlib

/-!
Verification of the Mistral workflow-engine core vendored in this repository.

Shallow embedding of:
* `mistral/workflow/states.py` (state vocabulary and transition table),
* `mistral/workflow/data_flow.py` (`ContextView`, `get_task_execution_result`,
  `publish_variables`),
* `mistral/engine/default_engine.py` (`start_workflow`,
  `process_action_heartbeats`),
* `mistral/api/controllers/v2/task.py` (`TasksController.put`, the rerun
  endpoint),
* `mistral/services/workflows.py` (`update_workflow_execution_env`).

Python `dict`s are embedded as association lists with first-match lookup;
Python exceptions as `Except`; machine-level details (timestamps, RPC
transport, SQLAlchemy sessions) are outside the embedded fragment.
-/

namespace Spec2Proof

/-! ### Dictionaries

A Python `dict` is embedded as an association list; `dget` returns the first
binding of a key, so prepending bindings overrides older ones. -/

abbrev Dict (α : Type) := List (String × α)

def dget (d : Dict α) (k : String) : Option α :=
  (d.find? (fun p => p.1 == k)).map (fun p => p.2)

def dcontains (d : Dict α) (k : String) : Bool :=
  (dget d k).isSome

/-- Pointwise update of an existing key's value (leaves other keys alone). -/
def dset (d : Dict α) (k : String) (v : α) : Dict α :=
  d.map (fun p => if p.1 == k then (k, v) else p)

/-- Modelled from the spec: `mistral_lib.utils.merge_dicts` is not under
`src/` (it lives in the external `mistral_lib` package).  Per the spec (§4.2)
a merge "eagerly combine[s] all layers into a single map honoring the same
precedence", and conflicting keys are resolved last-applied-wins, so the
right dictionary's entries win over the left's. -/
def merge_dicts (left right : Dict α) : Dict α :=
  right ++ left

/-! ### `mistral/workflow/states.py` -/

namespace states

def IDLE : String := "IDLE"
def WAITING : String := "WAITING"
def RUNNING : String := "RUNNING"
def RUNNING_DELAYED : String := "DELAYED"
def PAUSED : String := "PAUSED"
def SUCCESS : String := "SUCCESS"
def CANCELLED : String := "CANCELLED"
def ERROR : String := "ERROR"
def SKIPPED : String := "SKIPPED"

def _ALL : List String :=
  [IDLE, WAITING, RUNNING, RUNNING_DELAYED, PAUSED, SUCCESS, CANCELLED,
   ERROR, SKIPPED]

/-- The `_VALID_TRANSITIONS` dictionary exactly as written in the source:
note that `CANCELLED` maps to `[RUNNING]` and that `SKIPPED` has no entry at
all. -/
def _VALID_TRANSITIONS : Dict (List String) :=
  [(IDLE, [RUNNING, ERROR, CANCELLED]),
   (WAITING, [RUNNING]),
   (RUNNING, [PAUSED, RUNNING_DELAYED, SUCCESS, ERROR, CANCELLED]),
   (RUNNING_DELAYED, [RUNNING, ERROR, CANCELLED]),
   (PAUSED, [RUNNING, ERROR, CANCELLED]),
   (SUCCESS, []),
   (CANCELLED, [RUNNING]),
   (ERROR, [RUNNING, SKIPPED])]

def is_valid (state : String) : Bool :=
  _ALL.contains state

def is_invalid (state : String) : Bool :=
  !(is_valid state)

/-- `is_valid_transition(from_state, to_state)`.  A Python `KeyError`
(raised when `_VALID_TRANSITIONS[from_state]` has no entry, which happens
exactly for `SKIPPED`) is embedded as `Except.error`. -/
def is_valid_transition (from_state to_state : String) : Except String Bool :=
  if is_invalid from_state || is_invalid to_state then
    .ok false
  else if from_state == to_state then
    .ok true
  else
    match dget _VALID_TRANSITIONS from_state with
    | some lst => .ok (lst.contains to_state)
    | none => .error "KeyError"

/-- The transition table exactly as the spec's §4.1 table states it, for
comparison with the code: `SUCCESS`, `CANCELLED` and `SKIPPED` have no
outgoing transitions. -/
def specTransitions (s : String) : List String :=
  if s == IDLE then [RUNNING, ERROR, CANCELLED]
  else if s == WAITING then [RUNNING]
  else if s == RUNNING then [PAUSED, RUNNING_DELAYED, SUCCESS, ERROR, CANCELLED]
  else if s == RUNNING_DELAYED then [RUNNING, ERROR, CANCELLED]
  else if s == PAUSED then [RUNNING, ERROR, CANCELLED]
  else if s == ERROR then [RUNNING, SKIPPED]
  else []

end states

/-! ### `mistral/engine/default_engine.py` — `DefaultEngine.start_workflow`

The persistent store is an association list from execution id to record.
`ι` is the (opaque) type of a workflow input. -/

namespace engine

inductive DbErr
  | DBDuplicateEntry
  | DBEntityNotFound
deriving DecidableEq

structure WfExE (ι : Type) where
  id : String
  input : ι
deriving DecidableEq

abbrev WfDB (ι : Type) := List (String × WfExE ι)

def get_workflow_execution (db : WfDB ι) (wf_ex_id : String) :
    Except DbErr (WfExE ι) :=
  match dget db wf_ex_id with
  | some w => .ok w
  | none => .error .DBEntityNotFound

def create_workflow_execution (db : WfDB ι) (w : WfExE ι) :
    Except DbErr (WfDB ι) :=
  if dcontains db w.id then .error .DBDuplicateEntry
  else .ok (db ++ [(w.id, w)])

/-- Modelled from the spec: `mistral.engine.workflow_handler.start_workflow`
is not under `src/` (only its caller `DefaultEngine.start_workflow` is).
Per the spec (§4.5) it validates the input, resolves the environment and
creates the workflow execution record with the caller's explicit id (or a
fresh one when none is given) and the supplied input; per §7 creating an
execution whose id already exists fails with `DuplicateEntryError`.
Input validation and env resolution do not affect the stored id/input and
are left out of the embedded record. -/
def wf_handler_start_workflow (db : WfDB ι) (fresh : String)
    (wf_ex_id : Option String) (wf_input : ι) :
    Except DbErr (WfDB ι × WfExE ι) :=
  let w : WfExE ι := ⟨wf_ex_id.getD fresh, wf_input⟩
  (create_workflow_execution db w).map (fun db2 => (db2, w))

/-- `DefaultEngine.start_workflow`.  The `try` block runs
`wf_handler.start_workflow` and `wf_handler.check_and_complete` inside one
transaction; `check_and_complete` is not under `src/` and only moves the
workflow's state, never its id or input, so it is abstracted as a db-only
function `cac`.  A `DBDuplicateEntryError` aborts that transaction (its
writes are discarded) and the existing execution is fetched and returned
unchanged. -/
def start_workflow (cac : WfDB ι → String → WfDB ι) (db : WfDB ι)
    (fresh : String) (wf_ex_id : Option String) (wf_input : ι) :
    Except DbErr (WfDB ι × WfExE ι) :=
  match wf_handler_start_workflow db fresh wf_ex_id wf_input with
  | .ok (db2, w) => .ok (cac db2 w.id, w)
  | .error .DBDuplicateEntry =>
      match wf_ex_id with
      | some i => (get_workflow_execution db i).map (fun w => (db, w))
      | none => .error .DBEntityNotFound
  | .error e => .error e

end engine

/-! ### `mistral/engine/default_engine.py` — `process_action_heartbeats`

The heartbeat store maps an action execution id to a heartbeat counter
(bumping the counter stands for refreshing `last_heartbeat`).  `fail`
marks the ids whose update raises a transient storage error — any
exception other than `DBEntityNotFoundError`, which the loop does not
catch. -/

namespace heartbeats

inductive HbErr
  | notFound
  | dbError
deriving DecidableEq

abbrev HbDB := List (String × Nat)

/-- `db_api.update_action_execution_heartbeat(exec_id)`: raises
`DBEntityNotFoundError` when no such action execution exists; any other
storage failure is an uncaught exception (`dbError`). -/
def update_action_execution_heartbeat (fail : String → Bool) (db : HbDB)
    (exec_id : String) : Except HbErr HbDB :=
  if fail exec_id then .error .dbError
  else
    match dget db exec_id with
    | some n => .ok (dset db exec_id (n + 1))
    | none => .error .notFound

/-- The body of the `for` loop of `process_action_heartbeats` as it runs
inside the single `db_api.transaction()` block: `DBEntityNotFoundError` is
caught and the loop continues; any other exception escapes the block. -/
def heartbeats_loop (fail : String → Bool) (db : HbDB) :
    List String → Except HbErr HbDB
  | [] => .ok db
  | exec_id :: rest =>
      match update_action_execution_heartbeat fail db exec_id with
      | .ok db2 => heartbeats_loop fail db2 rest
      | .error .notFound => heartbeats_loop fail db rest
      | .error e => .error e

/-- `DefaultEngine.process_action_heartbeats`: the whole loop runs inside
one `with db_api.transaction():` block.  Transaction semantics are modelled
from the spec (§9, transaction-as-context-manager): commit on success,
roll back every write on an uncaught exception. -/
def process_action_heartbeats (fail : String → Bool) (db : HbDB)
    (action_ex_ids : List String) : HbDB :=
  match heartbeats_loop fail db action_ex_ids with
  | .ok db2 => db2
  | .error _ => db

/-- The behaviour the claim describes (each id's update its own atomic
unit): a per-id transaction, where one id's failure rolls back only that
id's own update.  Stated from the spec's words, for comparison with the
code. -/
def per_id_heartbeats (fail : String → Bool) (db : HbDB)
    (action_ex_ids : List String) : HbDB :=
  action_ex_ids.foldl
    (fun d i =>
      match update_action_execution_heartbeat fail d i with
      | .ok d2 => d2
      | .error _ => d)
    db

end heartbeats

/-! ### `mistral/api/controllers/v2/task.py` — `TasksController.put`

The rerun endpoint.  `ε` is the opaque type of an `env` payload.  A wsme
field that the client did not supply is `Unset`; `task.name or None` and
`task.reset or None` turn falsy values into `None`, which `Option` models.
The only state-changing effect of a successful call is the
`rpc.get_engine_client().rerun_workflow(...)` invocation, recorded as a
`RerunCall`; every validation failure raises `WorkflowException` before
that call, leaving the task untouched. -/

namespace task_api

inductive ResetField
  | unset
  | val (b : Bool)
deriving DecidableEq

structure TaskPut (ε : Type) where
  name : Option String
  workflow_name : Option String
  state : String
  reset : ResetField
  env : Option ε
deriving DecidableEq

structure TaskExR where
  name : String
  state : String
  with_items : Bool
deriving DecidableEq

structure WfExR where
  name : String
deriving DecidableEq

structure RerunCall (ε : Type) where
  reset : Option Bool
  skip : Bool
  env : Option ε
deriving DecidableEq

/-- `reset = task.reset or None`: wsme's `Unset` and `False` are both falsy
and become `None`; only a supplied `True` survives. -/
def normalize_reset (r : ResetField) : Option Bool :=
  match r with
  | .val true => some true
  | _ => none

def put (task : TaskPut ε) (task_ex : TaskExR) (wf_ex : WfExR) :
    Except String (RerunCall ε) :=
  if (match task.name with
      | some n => n != task_ex.name
      | none => false) then
    .error "Task name does not match."
  else if (match task.workflow_name with
      | some n => n != wf_ex.name
      | none => false) then
    .error "Workflow name does not match."
  else if task.state != states.RUNNING && task.state != states.SKIPPED then
    .error "Invalid task state. Only updating task to RUNNING or SKIPPED is supported."
  else if task_ex.state != states.ERROR then
    .error "The current task execution must be in ERROR for rerun. Only updating task to rerun is supported."
  else if task.state == states.RUNNING && task.reset == ResetField.unset then
    .error "Reset field is mandatory to rerun task."
  else if task.state == states.RUNNING &&
      (!task_ex.with_items && normalize_reset task.reset == none) then
    .error "Only with-items task has the option to not reset."
  else
    .ok ⟨normalize_reset task.reset, task.state == states.SKIPPED, task.env⟩

end task_api

/-! ### `mistral/workflow/data_flow.py` — `get_task_execution_result`

One record per action execution of the task.  `index` is
`runtime_context['index']` (set on every with-items action execution);
`output` is already the extracted result: `_extract_execution_result`
returns `ex.output['result']` when `ex.output` is truthy and `None`
otherwise, which `Option α` models.  `with_items` is the truthiness of
`spec_parser.get_task_spec(task_ex.spec).get_with_items()`. -/

namespace data_flow

structure ActionExD (α : Type) where
  index : Nat
  accepted : Bool
  output : Option α
deriving DecidableEq

structure TaskExD (α : Type) where
  executions : List (ActionExD α)
  with_items : Bool
deriving DecidableEq

/-- A Python value that is either a bare result or a list of results:
`get_task_execution_result` returns `results[0]` when exactly one result
was collected for a non-with-items task and the whole list otherwise. -/
inductive TaskResult (α : Type)
  | single : Option α → TaskResult α
  | listed : List (Option α) → TaskResult α
deriving DecidableEq

/-- The comparison `execs.sort(key=lambda x: x.runtime_context.get('index'))`
performs: a stable sort by the item index. -/
def exLE (a b : ActionExD α) : Bool :=
  a.index ≤ b.index

def get_task_execution_result (task_ex : TaskExD α) : TaskResult α :=
  let execs := task_ex.executions.mergeSort exLE
  let results := (execs.filter (fun e => e.accepted)).map (fun e => e.output)
  if task_ex.with_items then
    .listed results
  else
    match results with
    | [r] => .single r
    | rs => .listed rs

end data_flow

/-! ### `mistral/workflow/data_flow.py` — `ContextView`

`dicts` are given in order of decreasing priority.  The constructor either
keeps the layers (default strategy; `None` layers are dropped, and layers
are modelled as present dictionaries) or, when
`CONF.engine.merge_strategy == 'merge'`, eagerly folds `merge_dicts` over
the reversed layers so that earlier (higher-priority) layers are merged
last and win. -/

namespace ctx_view

structure ContextViewD (α : Type) where
  dicts : List (Dict α)

def contextViewInit (merge_strategy : String) (ds : List (Dict α)) :
    ContextViewD α :=
  if merge_strategy == "merge" then
    ⟨[ds.reverse.foldl (fun res d => merge_dicts res d) []]⟩
  else
    ⟨ds⟩

/-- Lookup over the layers: the first dictionary containing the key wins
(`__getitem__` / `get`). -/
def layersGet (ds : List (Dict α)) (k : String) : Option α :=
  match ds with
  | [] => none
  | d :: rest =>
      match dget d k with
      | some v => some v
      | none => layersGet rest k

def ContextViewD.get (cv : ContextViewD α) (k : String) : Option α :=
  layersGet cv.dicts k

/-- `__contains__` (and hence membership in `keys()`, which is the union of
the layers' key sets). -/
def ContextViewD.containsKey (cv : ContextViewD α) (k : String) : Bool :=
  cv.dicts.any (fun d => dcontains d k)

end ctx_view

/-! ### `mistral/workflow/data_flow.py` — `publish_variables`

`ε` is the opaque type of an expression dictionary (`publish` clauses),
`α` the type of context values.  `expr.evaluate_recursively` is the opaque
expression evaluator `eval`, applied to the `ContextView` the code builds;
`get_current_task_dict` yields the current-task marker layer and is passed
in as `ctd` because its nested payload is opaque at type `α`. -/

namespace publish

structure PublishSpecD (ε : Type) where
  branch : Dict ε
  glob : Dict ε

/-- `task_spec.get_publish(state)`: `none` models a falsy publish spec. -/
structure TaskSpecD (ε : Type) where
  publish : String → Option (PublishSpecD ε)

structure WfExD (α : Type) where
  context : Dict α
  input : Dict α
  env : Dict α

structure TaskExPub (α : Type) where
  id : String
  name : String
  state : String
  in_context : Dict α
  published : Dict α
deriving DecidableEq

def publish_variables (merge_strategy : String)
    (ctd : TaskExPub α → Dict α)
    (eval : Dict ε → ctx_view.ContextViewD α → Dict α)
    (task_ex : TaskExPub α) (wf_ex : WfExD α) (task_spec : TaskSpecD ε) :
    TaskExPub α × WfExD α :=
  if !([states.SUCCESS, states.ERROR, states.SKIPPED].contains task_ex.state) then
    (task_ex, wf_ex)
  else
    let expr_ctx := ctx_view.contextViewInit merge_strategy
      [ctd task_ex, task_ex.in_context, wf_ex.env, wf_ex.context, wf_ex.input]
    match task_spec.publish task_ex.state with
    | none => (task_ex, wf_ex)
    | some publish_spec =>
        let task_ex2 :=
          { task_ex with published := eval publish_spec.branch expr_ctx }
        let wf_ex2 :=
          { wf_ex with
              context := merge_dicts wf_ex.context (eval publish_spec.glob expr_ctx) }
        (task_ex2, wf_ex2)

end publish

/-! ### `mistral/services/workflows.py` — `update_workflow_execution_env`

`params_env` is `wf_ex.params['env']` when the key is present; reading a
missing key raises `KeyError`.  The `env` argument is `None` or a
dictionary; `if not env` covers both `None` and `{}`. -/

namespace workflows_service

structure WfExEnv (α : Type) where
  state : String
  params_env : Option (Dict α)
deriving DecidableEq

def update_workflow_execution_env (wf_ex : WfExEnv α) :
    Option (Dict α) → Except String (WfExEnv α)
  | none => .ok wf_ex
  | some e =>
      if e.isEmpty then .ok wf_ex
      else if !([states.IDLE, states.PAUSED, states.ERROR].contains wf_ex.state) then
        .error "Updating env to workflow execution is only permitted if it is in IDLE, PAUSED, or ERROR state."
      else
        match wf_ex.params_env with
        | some pe => .ok { wf_ex with params_env := some (merge_dicts pe e) }
        | none => .error "KeyError"

end workflows_service

/-- Equality of embedded Python results (`bool` or raised exception) is
decidable. -/
instance : DecidableEq (Except String Bool) :=
  fun a b =>
    match a, b with
    | .ok x, .ok y => decidable_of_iff (x = y) (by simp)
    | .error x, .error y => decidable_of_iff (x = y) (by simp)
    | .ok _, .error _ => isFalse (by simp)
    | .error _, .ok _ => isFalse (by simp)

/-! ## Helper lemmas -/

theorem valid_cases {s : String} (h : states.is_valid s = true) :
    s = states.IDLE ∨ s = states.WAITING ∨ s = states.RUNNING ∨
    s = states.RUNNING_DELAYED ∨ s = states.PAUSED ∨ s = states.SUCCESS ∨
    s = states.CANCELLED ∨ s = states.ERROR ∨ s = states.SKIPPED := by
  simp only [states.is_valid, states._ALL, List.contains_cons,
    List.contains_nil, Bool.or_eq_true, beq_iff_eq] at h
  tauto

theorem hb_loop_no_fail (fail : String → Bool) :
    ∀ (ids : List String) (db : heartbeats.HbDB),
      (∀ i ∈ ids, fail i = false) →
      heartbeats.heartbeats_loop fail db ids =
        .ok (heartbeats.per_id_heartbeats fail db ids)
  | [], _, _ => rfl
  | i :: rest, db, h => by
    have hi : fail i = false := h i (List.mem_cons_self i rest)
    have hrest : ∀ j ∈ rest, fail j = false :=
      fun j hj => h j (List.mem_cons_of_mem i hj)
    cases hd : dget db i with
    | some n =>
        have hu : heartbeats.update_action_execution_heartbeat fail db i =
            .ok (dset db i (n + 1)) := by
          simp [heartbeats.update_action_execution_heartbeat, hi, hd]
        simp only [heartbeats.heartbeats_loop, heartbeats.per_id_heartbeats,
          List.foldl_cons, hu]
        exact hb_loop_no_fail fail rest _ hrest
    | none =>
        have hu : heartbeats.update_action_execution_heartbeat fail db i =
            .error .notFound := by
          simp [heartbeats.update_action_execution_heartbeat, hi, hd]
        simp only [heartbeats.heartbeats_loop, heartbeats.per_id_heartbeats,
          List.foldl_cons, hu]
        exact hb_loop_no_fail fail rest _ hrest

theorem hb_loop_fail (fail : String → Bool) :
    ∀ (ids : List String) (db : heartbeats.HbDB),
      (∃ i ∈ ids, fail i = true) →
      heartbeats.heartbeats_loop fail db ids = .error .dbError
  | [], _, h => by simp at h
  | i :: rest, db, h => by
    by_cases hi : fail i = true
    · have hu : heartbeats.update_action_execution_heartbeat fail db i =
          .error .dbError := by
        simp [heartbeats.update_action_execution_heartbeat, hi]
      simp only [heartbeats.heartbeats_loop, hu]
    · have hi2 : fail i = false := by
        cases hfi : fail i
        · rfl
        · exact absurd hfi hi
      have hrest : ∃ j ∈ rest, fail j = true := by
        rcases h with ⟨j, hj, hfj⟩
        rcases List.mem_cons.mp hj with rfl | hj2
        · exact absurd hfj hi
        · exact ⟨j, hj2, hfj⟩
      cases hd : dget db i with
      | some n =>
          have hu : heartbeats.update_action_execution_heartbeat fail db i =
              .ok (dset db i (n + 1)) := by
            simp [heartbeats.update_action_execution_heartbeat, hi2, hd]
          simp only [heartbeats.heartbeats_loop, hu]
          exact hb_loop_fail fail rest _ hrest
      | none =>
          have hu : heartbeats.update_action_execution_heartbeat fail db i =
              .error .notFound := by
            simp [heartbeats.update_action_execution_heartbeat, hi2, hd]
          simp only [heartbeats.heartbeats_loop, hu]
          exact hb_loop_fail fail rest _ hrest

theorem foldl_merge_acc (ds : List (Dict α)) :
    ∀ acc : Dict α,
      ds.reverse.foldl (fun res d => merge_dicts res d) acc
        = ds.flatten ++ acc := by
  induction ds with
  | nil => intro acc; rfl
  | cons d rest ih =>
      intro acc
      simp only [List.reverse_cons, List.foldl_append, List.foldl_cons,
        List.foldl_nil, List.flatten_cons, ih]
      simp [merge_dicts]

theorem dget_append (a b : Dict α) (k : String) :
    dget (a ++ b) k = (match dget a k with
      | some v => some v
      | none => dget b k) := by
  unfold dget
  rw [List.find?_append]
  cases a.find? (fun p => p.1 == k) <;> simp [Option.orElse]

theorem dget_flatten_layers (ds : List (Dict α)) (k : String) :
    dget ds.flatten k = ctx_view.layersGet ds k := by
  induction ds with
  | nil => rfl
  | cons d rest ih =>
      simp only [List.flatten_cons, dget_append, ih]
      unfold ctx_view.layersGet
      cases dget d k
      · cases rest <;> rfl
      · rfl

theorem layersGet_isSome_any (ds : List (Dict α)) (k : String) :
    (ctx_view.layersGet ds k).isSome = ds.any (fun d => dcontains d k) := by
  induction ds with
  | nil => rfl
  | cons d rest ih =>
      unfold ctx_view.layersGet
      cases hd : dget d k <;> simp [dcontains, hd, ih]

theorem layersGet_single (d : Dict α) (k : String) :
    ctx_view.layersGet [d] k = dget d k := by
  unfold ctx_view.layersGet
  cases hd : dget d k <;> simp [hd, ctx_view.layersGet]

/-- Two lists that are permutations of each other, are both sorted by a
key, and have no duplicate keys, are equal (soundness of sorting by the
with-items index). -/
theorem sorted_key_nodup_perm_eq {α : Type} (key : α → Nat) :
    ∀ {l₁ l₂ : List α}, l₁.Perm l₂ →
      l₁.Pairwise (fun a b => key a ≤ key b) →
      l₂.Pairwise (fun a b => key a ≤ key b) →
      (l₁.map key).Nodup → l₁ = l₂ := by
  intro l₁
  induction l₁ with
  | nil =>
      intro l₂ hp _ _ _
      exact (hp.symm.eq_nil).symm
  | cons a t ih =>
      intro l₂ hp hs₁ hs₂ hnd
      cases l₂ with
      | nil => exact absurd hp.eq_nil (by simp)
      | cons b t₂ =>
          have hbmem : b ∈ a :: t := hp.mem_iff.mpr (List.mem_cons_self b t₂)
          have hamem : a ∈ b :: t₂ := hp.mem_iff.mp (List.mem_cons_self a t)
          have h1 : key a ≤ key b := by
            rcases List.mem_cons.mp hbmem with rfl | hb
            · exact le_refl _
            · exact (List.pairwise_cons.mp hs₁).1 b hb
          have h2 : key b ≤ key a := by
            rcases List.mem_cons.mp hamem with rfl | ha
            · exact le_refl _
            · exact (List.pairwise_cons.mp hs₂).1 a ha
          have hab : a = b := by
            rcases List.mem_cons.mp hbmem with rfl | hb
            · rfl
            · exfalso
              have hkm : key b ∈ t.map key := List.mem_map_of_mem key hb
              have hk : key a = key b := le_antisymm h1 h2
              rw [← hk] at hkm
              exact (List.nodup_cons.mp (by simpa using hnd)).1 hkm
          subst hab
          have hpt : t.Perm t₂ := hp.cons_inv
          rw [ih hpt (List.pairwise_cons.mp hs₁).2
            (List.pairwise_cons.mp hs₂).2
            (List.nodup_cons.mp (by simpa using hnd)).2]

theorem exLE_trans {α : Type} (a b c : data_flow.ActionExD α) :
    data_flow.exLE a b → data_flow.exLE b c → data_flow.exLE a c := by
  simp only [data_flow.exLE, decide_eq_true_eq]
  omega

theorem exLE_total {α : Type} (a b : data_flow.ActionExD α) :
    data_flow.exLE a b || data_flow.exLE b a := by
  simp only [data_flow.exLE, Bool.or_eq_true, decide_eq_true_eq]
  omega

theorem mergeSort_pairwise_index {α : Type}
    (l : List (data_flow.ActionExD α)) :
    (l.mergeSort data_flow.exLE).Pairwise
      (fun a b => a.index ≤ b.index) := by
  have hs := @List.sorted_mergeSort _ data_flow.exLE
    (fun a b c => exLE_trans a b c) (fun a b => exLE_total a b) l
  exact hs.imp (fun h => by simpa [data_flow.exLE] using h)

theorem mergeSort_eq_of_perm {α : Type}
    {l₁ l₂ : List (data_flow.ActionExD α)} (hperm : l₁.Perm l₂)
    (hnodup : (l₁.map (fun e => e.index)).Nodup) :
    l₁.mergeSort data_flow.exLE = l₂.mergeSort data_flow.exLE := by
  apply sorted_key_nodup_perm_eq (fun e => e.index)
  · exact (List.mergeSort_perm l₁ _).trans
      (hperm.trans (List.mergeSort_perm l₂ _).symm)
  · exact mergeSort_pairwise_index l₁
  · exact mergeSort_pairwise_index l₂
  · have hmp : ((l₁.mergeSort data_flow.exLE).map
        (fun e => e.index)).Perm (l₁.map (fun e => e.index)) :=
      (List.mergeSort_perm l₁ _).map _
    exact hmp.nodup_iff.mpr hnodup

/-! ## Claim theorems -/

/-- Claim C1, counterexample: the claim says that from `CANCELLED` no
transition to a distinct state is valid (the transition table of the spec
lists none), yet `is_valid_transition(CANCELLED, RUNNING)` returns `True`
even though both states are recognized, they differ, and the transition is
not in the table as the spec states it. -/
theorem C1_counterexample :
    states.is_valid_transition states.CANCELLED states.RUNNING = Except.ok true
    ∧ states.is_valid states.CANCELLED = true
    ∧ states.is_valid states.RUNNING = true
    ∧ states.CANCELLED ≠ states.RUNNING
    ∧ states.RUNNING ∉ states.specTransitions states.CANCELLED :=
  ⟨rfl, rfl, rfl, by decide, by decide⟩

/-- Claim C1, amended: `is_valid_transition(from, to)` returns `True` iff
both states are recognized and either `from == to` or the transition is in
the table of the spec extended with `CANCELLED→RUNNING`; moreover it does
not always return a boolean: it raises `KeyError` exactly when both states
are recognized, `from` is `SKIPPED`, and `to` is a distinct state (the
dictionary has no `SKIPPED` entry); in all remaining cases it returns
`False`. -/
theorem C1_transition_characterization (f t : String) :
    (states.is_valid_transition f t = .ok true ↔
      (states.is_valid f = true ∧ states.is_valid t = true ∧
        (f = t ∨ t ∈ states.specTransitions f ∨
          (f = states.CANCELLED ∧ t = states.RUNNING))))
    ∧ (states.is_valid_transition f t = .error "KeyError" ↔
      (states.is_valid f = true ∧ states.is_valid t = true ∧
        f = states.SKIPPED ∧ t ≠ states.SKIPPED)) := by
  by_cases hf : states.is_valid f = true
  · by_cases ht : states.is_valid t = true
    · rcases valid_cases hf with rfl|rfl|rfl|rfl|rfl|rfl|rfl|rfl|rfl <;>
        rcases valid_cases ht with rfl|rfl|rfl|rfl|rfl|rfl|rfl|rfl|rfl <;>
        decide
    · have hres : states.is_valid_transition f t = .ok false := by
        have h2 : states.is_invalid t = true := by
          simp [states.is_invalid, ht]
        unfold states.is_valid_transition
        simp [h2]
      rw [hres]
      refine ⟨⟨fun h => by simp at h, fun h => absurd h.2.1 ht⟩,
        ⟨fun h => by simp at h, fun h => absurd h.2.1 ht⟩⟩
  · have hres : states.is_valid_transition f t = .ok false := by
      have h2 : states.is_invalid f = true := by
        simp [states.is_invalid, hf]
      unfold states.is_valid_transition
      simp [h2]
    rw [hres]
    refine ⟨⟨fun h => by simp at h, fun h => absurd h.1 hf⟩,
      ⟨fun h => by simp at h, fun h => absurd h.1 hf⟩⟩

/-- Claim C2: when `start_workflow` is called with an explicit execution id
that already exists, the duplicate-entry error is caught and the previously
created execution is returned unchanged (with its original input), for any
second-call input and without touching the store. -/
theorem C2_start_workflow_idempotent {ι : Type}
    (cac : engine.WfDB ι → String → engine.WfDB ι) (db : engine.WfDB ι)
    (fresh : String) (wf_ex_id : String) (inp2 : ι) (E : engine.WfExE ι)
    (h : dget db wf_ex_id = some E) :
    engine.start_workflow cac db fresh (some wf_ex_id) inp2
      = .ok (db, E) := by
  have hc : dcontains db wf_ex_id = true := by simp [dcontains, h]
  unfold engine.start_workflow engine.wf_handler_start_workflow
    engine.create_workflow_execution engine.get_workflow_execution
  simp [hc, h, Except.map]

theorem C2_witness :
    engine.start_workflow (fun d _ => d)
        [("X", ⟨"X", (1 : Nat)⟩)] "fresh" (some "X") 2
      = .ok ([("X", ⟨"X", 1⟩)], ⟨"X", 1⟩) :=
  C2_start_workflow_idempotent (fun d _ => d) [("X", ⟨"X", 1⟩)] "fresh" "X" 2
    ⟨"X", 1⟩ rfl

/-- Claim C3: a rerun request (update toward RUNNING or SKIPPED) against a
task execution whose persisted state is anything other than ERROR fails
with a validation error (`WorkflowException`), so the engine rerun call is
never issued and the task is unchanged; rerun proceeds only from ERROR. -/
theorem C3_rerun_requires_error_state {ε : Type} (task : task_api.TaskPut ε)
    (task_ex : task_api.TaskExR) (wf_ex : task_api.WfExR)
    (hreq : task.state = states.RUNNING ∨ task.state = states.SKIPPED)
    (h : task_ex.state ≠ states.ERROR) :
    ∃ msg, task_api.put task task_ex wf_ex = .error msg := by
  clear hreq
  unfold task_api.put
  split
  · exact ⟨_, rfl⟩
  · split
    · exact ⟨_, rfl⟩
    · split
      · exact ⟨_, rfl⟩
      · have h4 : (task_ex.state != states.ERROR) = true := by simpa using h
        rw [if_pos h4]
        exact ⟨_, rfl⟩

theorem C3_witness :
    ∃ msg, task_api.put (ε := Unit)
        ⟨none, none, states.RUNNING, .val true, none⟩
        ⟨"t1", states.SUCCESS, false⟩ ⟨"wf"⟩ = .error msg :=
  C3_rerun_requires_error_state _ _ _ (Or.inl rfl) (by decide)

/-- Claim C4, counterexample: `process_action_heartbeats` does wrap the
whole batch in one transaction.  With ids `["a", "b"]` where `"a"` exists
and updates fine while `"b"` raises an uncaught storage error, the single
transaction rolls back and `"a"` keeps heartbeat `0`, although the update
of `"a"` on its own succeeds and the per-id-atomic semantics the claim
describes would commit it. -/
theorem C4_counterexample :
    heartbeats.process_action_heartbeats (fun i => i == "b")
        [("a", 0), ("b", 0)] ["a", "b"] = [("a", 0), ("b", 0)]
    ∧ heartbeats.update_action_execution_heartbeat (fun i => i == "b")
        [("a", 0), ("b", 0)] "a" = .ok [("a", 1), ("b", 0)]
    ∧ heartbeats.per_id_heartbeats (fun i => i == "b")
        [("a", 0), ("b", 0)] ["a", "b"] = [("a", 1), ("b", 0)] :=
  ⟨rfl, rfl, rfl⟩

/-- Claim C4, amended: the whole batch runs in a single transaction.  A
`DBEntityNotFoundError` on one id is caught inside the loop, so when no id
raises any other storage error the committed result agrees with the
per-id-atomic semantics (missing ids skipped, the others updated); but if
any id raises an uncaught storage error, the transaction rolls back every
update of the batch. -/
theorem C4_single_transaction_heartbeats (fail : String → Bool)
    (db : heartbeats.HbDB) (ids : List String) :
    ((∀ i ∈ ids, fail i = false) →
      heartbeats.process_action_heartbeats fail db ids =
        heartbeats.per_id_heartbeats fail db ids)
    ∧ ((∃ i ∈ ids, fail i = true) →
      heartbeats.process_action_heartbeats fail db ids = db) := by
  constructor
  · intro h
    unfold heartbeats.process_action_heartbeats
    rw [hb_loop_no_fail fail ids db h]
  · intro h
    unfold heartbeats.process_action_heartbeats
    rw [hb_loop_fail fail ids db h]

theorem C4_witness :
    heartbeats.process_action_heartbeats (fun _ => false)
        [("a", 0)] ["a", "x"]
      = heartbeats.per_id_heartbeats (fun _ => false) [("a", 0)] ["a", "x"] :=
  (C4_single_transaction_heartbeats (fun _ => false) [("a", 0)] ["a", "x"]).1
    (by decide)

/-- Claim C5: for a with-items task whose action executions carry pairwise
distinct item indices, `get_task_execution_result` is invariant under any
permutation of the executions (any completion order), and the returned list
is the accepted outputs taken in ascending index order. -/
theorem C5_with_items_result_ordered {α : Type}
    (t₁ t₂ : data_flow.TaskExD α)
    (h₁ : t₁.with_items = true) (h₂ : t₂.with_items = true)
    (hperm : t₁.executions.Perm t₂.executions)
    (hnodup : (t₁.executions.map (fun e => e.index)).Nodup) :
    data_flow.get_task_execution_result t₁
        = data_flow.get_task_execution_result t₂
    ∧ ∃ es : List (data_flow.ActionExD α), es.Perm t₁.executions
        ∧ es.Pairwise (fun a b => a.index ≤ b.index)
        ∧ data_flow.get_task_execution_result t₁ =
            .listed ((es.filter (fun e => e.accepted)).map
              (fun e => e.output)) := by
  have hms : t₁.executions.mergeSort data_flow.exLE
      = t₂.executions.mergeSort data_flow.exLE :=
    mergeSort_eq_of_perm hperm hnodup
  constructor
  · unfold data_flow.get_task_execution_result
    rw [if_pos (by simp [h₁]), if_pos (by simp [h₂]), hms]
  · refine ⟨t₁.executions.mergeSort data_flow.exLE,
      List.mergeSort_perm t₁.executions _,
      mergeSort_pairwise_index t₁.executions, ?_⟩
    unfold data_flow.get_task_execution_result
    rw [if_pos (by simp [h₁])]

theorem C5_witness :
    data_flow.get_task_execution_result (α := Nat)
        ⟨[⟨2, true, some 20⟩, ⟨1, true, some 10⟩], true⟩
      = data_flow.get_task_execution_result
        ⟨[⟨1, true, some 10⟩, ⟨2, true, some 20⟩], true⟩ :=
  (C5_with_items_result_ordered _ _ rfl rfl (by decide) (by decide)).1

/-- Claim C6: `publish_variables` returns without touching the task's
published variables or the owning workflow execution's context whenever the
task's state is not one of SUCCESS, ERROR, SKIPPED — regardless of the
strategy, the publish spec, or the evaluator. -/
theorem C6_publish_frame {α ε : Type} (merge_strategy : String)
    (ctd : publish.TaskExPub α → Dict α)
    (eval : Dict ε → ctx_view.ContextViewD α → Dict α)
    (task_ex : publish.TaskExPub α) (wf_ex : publish.WfExD α)
    (task_spec : publish.TaskSpecD ε)
    (h : task_ex.state ∉ [states.SUCCESS, states.ERROR, states.SKIPPED]) :
    publish.publish_variables merge_strategy ctd eval task_ex wf_ex task_spec
      = (task_ex, wf_ex) := by
  have hc : ([states.SUCCESS, states.ERROR, states.SKIPPED].contains
      task_ex.state) = false := by
    simpa using h
  have hg : (!([states.SUCCESS, states.ERROR, states.SKIPPED].contains
      task_ex.state)) = true := by
    rw [hc]; rfl
  unfold publish.publish_variables
  rw [if_pos hg]

theorem C6_witness :
    publish.publish_variables (α := Nat) (ε := Nat) "merge"
        (fun _ => []) (fun _ _ => [])
        ⟨"id1", "t1", states.RUNNING, [], []⟩ ⟨[], [], []⟩ ⟨fun _ => none⟩
      = (⟨"id1", "t1", states.RUNNING, [], []⟩, ⟨[], [], []⟩) :=
  C6_publish_frame "merge" _ _ _ _ _ (by decide)

/-- Claim C7: for every ordered list of layer dictionaries and every key,
a `ContextView` built under the eager merge strategy and one built under
any other (default, precedence-view) strategy agree on lookup and on key
membership, both honoring lower-index-layer-wins precedence. -/
theorem C7_merge_strategy_equivalent {α : Type} (ds : List (Dict α))
    (k : String) (strategy : String) (h : strategy ≠ "merge") :
    ((ctx_view.contextViewInit "merge" ds).get k
        = (ctx_view.contextViewInit strategy ds).get k)
    ∧ ((ctx_view.contextViewInit "merge" ds).containsKey k
        = (ctx_view.contextViewInit strategy ds).containsKey k) := by
  have hs : (strategy == "merge") = false := by simp [h]
  have hmerge : ctx_view.contextViewInit "merge" ds =
      ⟨[ds.reverse.foldl (fun res d => merge_dicts res d) []]⟩ := rfl
  have hdef : ctx_view.contextViewInit strategy ds = ⟨ds⟩ := by
    unfold ctx_view.contextViewInit
    rw [if_neg (show ¬((strategy == "merge") = true) by simp [hs])]
  rw [hmerge, hdef]
  constructor
  · show ctx_view.layersGet [_] k = ctx_view.layersGet ds k
    rw [layersGet_single, foldl_merge_acc ds [], List.append_nil,
      dget_flatten_layers]
  · show List.any [_] _ = _
    simp only [List.any_cons, List.any_nil, Bool.or_false]
    rw [dcontains, foldl_merge_acc ds [], List.append_nil,
      dget_flatten_layers, layersGet_isSome_any]
    rfl

theorem C7_witness :
    (ctx_view.contextViewInit "merge" [[("k", 1)], [("k", 2)]]).get "k"
      = (ctx_view.contextViewInit "local" [[("k", 1)], [("k", 2)]]).get "k" :=
  (C7_merge_strategy_equivalent [[("k", 1)], [("k", 2)]] "k" "local"
    (by decide)).1

/-- Claim C8, counterexample: the claim says a rerun (to RUNNING) of a
non-with-items task in ERROR whose caller does not supply `reset` is
accepted with a default of full reset; the code instead rejects it with
"Reset field is mandatory to rerun task.". -/
theorem C8_counterexample :
    task_api.put (ε := Unit)
        ⟨none, none, states.RUNNING, .unset, none⟩
        ⟨"t1", states.ERROR, false⟩ ⟨"wf"⟩
      = .error "Reset field is mandatory to rerun task." := rfl

/-- Claim C8, amended: on a rerun to RUNNING of a task in ERROR (names
matching), the `reset` field is mandatory for every task, with-items or
not; in addition a falsy `reset` is only allowed for with-items tasks, so
the call is accepted iff `reset` was supplied and is either `true` or the
task is a with-items task. -/
theorem C8_reset_mandatory {ε : Type} (task : task_api.TaskPut ε)
    (task_ex : task_api.TaskExR) (wf_ex : task_api.WfExR)
    (hn : ∀ n, task.name = some n → n = task_ex.name)
    (hw : ∀ n, task.workflow_name = some n → n = wf_ex.name)
    (hs : task.state = states.RUNNING)
    (he : task_ex.state = states.ERROR) :
    (∃ r, task_api.put task task_ex wf_ex = .ok r) ↔
      (task.reset ≠ task_api.ResetField.unset ∧
        (task_ex.with_items = true ∨
          task.reset = task_api.ResetField.val true)) := by
  have h1 : (match task.name with
      | some n => n != task_ex.name
      | none => false) = false := by
    rcases hname : task.name with _ | n
    · rfl
    · simp [hn n hname]
  have h2 : (match task.workflow_name with
      | some n => n != wf_ex.name
      | none => false) = false := by
    rcases hwf : task.workflow_name with _ | m
    · rfl
    · simp [hw m hwf]
  rcases hr : task.reset with _ | b
  · simp [task_api.put, task_api.normalize_reset, h1, h2, hs, he, hr]
  · cases b
    · cases hwi : task_ex.with_items <;>
        simp [task_api.put, task_api.normalize_reset, h1, h2, hs, he, hr, hwi]
    · cases hwi : task_ex.with_items <;>
        simp [task_api.put, task_api.normalize_reset, h1, h2, hs, he, hr, hwi]

theorem C8_witness :
    ∃ r, task_api.put (ε := Unit)
        ⟨none, none, states.RUNNING, .val true, none⟩
        ⟨"t1", states.ERROR, false⟩ ⟨"wf"⟩ = .ok r :=
  (C8_reset_mandatory _ _ _ (fun n h => Option.noConfusion h) (fun n h => Option.noConfusion h)
    rfl rfl).mpr ⟨by decide, Or.inr rfl⟩

/-- Claim C9: for a non-with-items task, `get_task_execution_result`
unwraps the aggregation: when the accepted executions are exactly one, it
returns that execution's bare result; otherwise it returns the list of the
accepted executions' results (sorted by index); only accepted executions
contribute. -/
theorem C9_single_result_unwrapped {α : Type} (t : data_flow.TaskExD α)
    (h : t.with_items = false) :
    (∀ e, t.executions.filter (fun x => x.accepted) = [e] →
        data_flow.get_task_execution_result t = .single e.output)
    ∧ ((t.executions.filter (fun x => x.accepted)).length ≠ 1 →
        ∃ es : List (data_flow.ActionExD α),
          es.Perm (t.executions.filter (fun x => x.accepted))
          ∧ es.Pairwise (fun a b => a.index ≤ b.index)
          ∧ data_flow.get_task_execution_result t =
              .listed (es.map (fun e => e.output))) := by
  have hfp : ((t.executions.mergeSort data_flow.exLE).filter
        (fun x => x.accepted)).Perm
      (t.executions.filter (fun x => x.accepted)) :=
    (List.mergeSort_perm t.executions _).filter _
  constructor
  · intro e he
    have hone : (t.executions.mergeSort data_flow.exLE).filter
        (fun x => x.accepted) = [e] :=
      List.perm_singleton.mp (he ▸ hfp)
    unfold data_flow.get_task_execution_result
    rw [if_neg (by simp [h]), hone]
    rfl
  · intro hlen
    refine ⟨(t.executions.mergeSort data_flow.exLE).filter
      (fun x => x.accepted), hfp,
      (mergeSort_pairwise_index t.executions).filter _, ?_⟩
    unfold data_flow.get_task_execution_result
    rw [if_neg (by simp [h])]
    have hlen2 : (((t.executions.mergeSort data_flow.exLE).filter
        (fun x => x.accepted)).map (fun e => e.output)).length ≠ 1 := by
      rw [List.length_map, hfp.length_eq]
      exact hlen
    cases hres : ((t.executions.mergeSort data_flow.exLE).filter
        (fun x => x.accepted)).map (fun e => e.output) with
    | nil => rfl
    | cons r rs =>
        cases rs with
        | nil =>
            rw [hres] at hlen2
            exact absurd rfl hlen2
        | cons r2 rs2 => rfl

theorem C9_witness :
    data_flow.get_task_execution_result (α := Nat)
        ⟨[⟨0, true, some 5⟩, ⟨1, false, some 6⟩], false⟩
      = .single (some 5) :=
  (C9_single_result_unwrapped _ rfl).1 ⟨0, true, some 5⟩ (by decide)

/-- Claim C10: `update_workflow_execution_env` with a missing or empty env
returns the workflow execution unchanged in every state (including
RUNNING); with a non-empty env and a state outside IDLE, PAUSED, ERROR it
raises `NotAllowedException` before touching `params['env']`, leaving the
execution unmodified. -/
theorem C10_env_update_guard {α : Type}
    (wf_ex : workflows_service.WfExEnv α) (env : Option (Dict α)) :
    ((env = none ∨ env = some []) →
      workflows_service.update_workflow_execution_env wf_ex env = .ok wf_ex)
    ∧ (∀ d, env = some d → d ≠ [] →
        wf_ex.state ∉ [states.IDLE, states.PAUSED, states.ERROR] →
        workflows_service.update_workflow_execution_env wf_ex env =
          .error "Updating env to workflow execution is only permitted if it is in IDLE, PAUSED, or ERROR state.") := by
  constructor
  · rintro (rfl | rfl)
    · rfl
    · rfl
  · rintro d rfl hd hstate
    have he : d.isEmpty = false := by
      simpa [List.isEmpty_iff] using hd
    have hc : ([states.IDLE, states.PAUSED, states.ERROR].contains
        wf_ex.state) = false := by
      simpa using hstate
    have hg : (!([states.IDLE, states.PAUSED, states.ERROR].contains
        wf_ex.state)) = true := by
      rw [hc]; rfl
    show (if d.isEmpty = true then Except.ok wf_ex else _) = _
    rw [if_neg (by simp [he]), if_pos hg]

theorem C10_witness :
    workflows_service.update_workflow_execution_env (α := Nat)
        ⟨states.RUNNING, some []⟩ none = .ok ⟨states.RUNNING, some []⟩ :=
  (C10_env_update_guard ⟨states.RUNNING, some []⟩ none).1 (Or.inl rfl)

end Spec2Proof
